import Mathlib

/-!
Verification of the gofish client core: the reflection-driven structural
diff engine (`getPatchPayloadFromUpdate`), the `Entity` concurrency-control
operations (`Update`, `Get`, `Patch`, `Post`), and the collection retriever
(`ListReferencedDataStorageLineOfServices`), shallowly embedded from
`src/common/entity.go` and `src/unnamed/part_000`.
-/

namespace Gofish

/-- Metadata of one struct field as seen through `reflect`:
`name` is the Go field name, `jsonTag` the value of the `json` struct tag
(`""` when absent, `"-"` when the field is excluded), `anonymous` the
embedded-field flag, `exported` models `CanInterface`, and `isPtr` holds
when the declared field type has kind `reflect.Ptr`. -/
structure FieldMeta where
  name : String
  jsonTag : String
  anonymous : Bool
  exported : Bool
  isPtr : Bool
deriving DecidableEq, Repr

/-- Dynamic Go values as dispatched on by `getPatchPayloadFromUpdate`:
`vnil` is a nil interface value, `vint`/`vstr`/`vbool` are the scalar kinds
handled by the `default` case of the kind switch, `vslice` and `vmap` the
`reflect.Slice`/`reflect.Map` kinds, and `vstruct` the `reflect.Struct`
kind, carrying the fields of the nested record. -/
inductive Value where
  | vnil : Value
  | vint : Int → Value
  | vstr : String → Value
  | vbool : Bool → Value
  | vslice : List Value → Value
  | vmap : List (String × Value) → Value
  | vstruct : List (FieldMeta × Value) → Value

/-- Structural deep equality of dynamic values, modelling
`reflect.DeepEqual` (and, on the scalar kinds, Go interface equality). -/
def beqV : Value → Value → Bool
  | Value.vnil, Value.vnil => true
  | Value.vint a, Value.vint b => a == b
  | Value.vstr a, Value.vstr b => a == b
  | Value.vbool a, Value.vbool b => a == b
  | Value.vslice [], Value.vslice [] => true
  | Value.vslice (x :: xs), Value.vslice (y :: ys) =>
      beqV x y && beqV (Value.vslice xs) (Value.vslice ys)
  | Value.vmap [], Value.vmap [] => true
  | Value.vmap ((k, v) :: xs), Value.vmap ((k2, v2) :: ys) =>
      k == k2 && beqV v v2 && beqV (Value.vmap xs) (Value.vmap ys)
  | Value.vstruct [], Value.vstruct [] => true
  | Value.vstruct ((m, v) :: xs), Value.vstruct ((m2, v2) :: ys) =>
      m == m2 && beqV v v2 && beqV (Value.vstruct xs) (Value.vstruct ys)
  | _, _ => false

theorem eq_of_beqV : ∀ a b : Value, beqV a b = true → a = b := by
  intro a b
  induction a, b using beqV.induct <;> simp_all [beqV] <;> (intros; simp_all)

theorem beqV_refl : ∀ a : Value, beqV a a = true
  | Value.vnil => by simp [beqV]
  | Value.vint _ => by simp [beqV]
  | Value.vstr _ => by simp [beqV]
  | Value.vbool _ => by simp [beqV]
  | Value.vslice [] => by simp [beqV]
  | Value.vslice (x :: xs) => by
      simp [beqV, beqV_refl x, beqV_refl (Value.vslice xs)]
  | Value.vmap [] => by simp [beqV]
  | Value.vmap ((_, v) :: xs) => by
      simp [beqV, beqV_refl v, beqV_refl (Value.vmap xs)]
  | Value.vstruct [] => by simp [beqV]
  | Value.vstruct ((_, v) :: xs) => by
      simp [beqV, beqV_refl v, beqV_refl (Value.vstruct xs)]

theorem beqV_of_eq : ∀ a b : Value, a = b → beqV a b = true :=
  fun a _ h => h ▸ beqV_refl a

theorem beqV_iff : ∀ a b : Value, beqV a b = true ↔ a = b :=
  fun a b => ⟨eq_of_beqV a b, beqV_of_eq a b⟩

theorem beqV_eq_false_of_ne {a b : Value} (h : a ≠ b) : beqV a b = false := by
  cases hb : beqV a b
  · rfl
  · exact absurd (eq_of_beqV a b hb) h

instance : DecidableEq Value := fun a b =>
  if h : beqV a b = true then isTrue (eq_of_beqV a b h)
  else isFalse (fun he => h (beqV_of_eq a b he))

/-- Test for a nil interface value (`originalValue == nil` in Go). -/
def isNilV : Value → Bool
  | Value.vnil => true
  | _ => false

/-- Diff payloads: a mapping from wire field name to new value
(`map[string]interface{}` in Go, modelled as an association list built in
field order). -/
abbrev Payload := List (String × Value)

/-- Wire name of a field: the `json` tag when present, else the Go field
name (`fieldName`/`jsonName` logic of `getPatchPayloadFromUpdate`). -/
def wireName (m : FieldMeta) : String :=
  if m.jsonTag = "" then m.name else m.jsonTag

/-- Fields of a struct-kinded value (both snapshots have the same shape in
the source, so the non-struct fallback is never hit there). -/
def structFields : Value → List (FieldMeta × Value)
  | Value.vstruct fs => fs
  | _ => []

/-- Structural diff engine of `entity.go` (`getPatchPayloadFromUpdate`):
walks the fields of the two same-shaped snapshots in declaration order,
skipping unexported fields, pointer-kinded fields and fields tagged `"-"`;
slice/map kinds are included (with the updated value) when not deeply
equal, struct kinds recurse (splicing the result when the field is
embedded, nesting it under the wire name when non-empty otherwise), and
scalar kinds are included when unequal.  A nil original against a non-nil
update is always included; two nils are skipped. -/
def getPatchPayloadFromUpdate : List (FieldMeta × Value) → List (FieldMeta × Value) → Payload
  | [], _ => []
  | _ :: _, [] => []
  | (m, originalValue) :: os, (_, currentValue) :: cs =>
    let rest := getPatchPayloadFromUpdate os cs
    if m.exported = false then rest
    else if m.isPtr = true then rest
    else if m.jsonTag = "-" then rest
    else if (isNilV originalValue && isNilV currentValue) = true then rest
    else if isNilV originalValue = true then (wireName m, currentValue) :: rest
    else
      match originalValue with
      | Value.vslice _ =>
        if beqV originalValue currentValue = false then (wireName m, currentValue) :: rest
        else rest
      | Value.vmap _ =>
        if beqV originalValue currentValue = false then (wireName m, currentValue) :: rest
        else rest
      | Value.vstruct ofs =>
        let structPayload := getPatchPayloadFromUpdate ofs (structFields currentValue)
        if m.anonymous = true then structPayload ++ rest
        else if structPayload.length ≠ 0 then (wireName m, Value.vmap structPayload) :: rest
        else rest
      | _ =>
        if beqV originalValue currentValue = false then (wireName m, currentValue) :: rest
        else rest

theorem diff_self_eq : ∀ fs : List (FieldMeta × Value), getPatchPayloadFromUpdate fs fs = []
  | [] => by simp [getPatchPayloadFromUpdate]
  | (_, Value.vnil) :: os => by
      have ih := diff_self_eq os
      simp [getPatchPayloadFromUpdate, isNilV, ih]
  | (_, Value.vint n) :: os => by
      have ih := diff_self_eq os
      simp [getPatchPayloadFromUpdate, isNilV, beqV_refl, ih]
  | (_, Value.vstr s) :: os => by
      have ih := diff_self_eq os
      simp [getPatchPayloadFromUpdate, isNilV, beqV_refl, ih]
  | (_, Value.vbool b) :: os => by
      have ih := diff_self_eq os
      simp [getPatchPayloadFromUpdate, isNilV, beqV_refl, ih]
  | (_, Value.vslice xs) :: os => by
      have ih := diff_self_eq os
      simp [getPatchPayloadFromUpdate, isNilV, beqV_refl, ih]
  | (_, Value.vmap xs) :: os => by
      have ih := diff_self_eq os
      simp [getPatchPayloadFromUpdate, isNilV, beqV_refl, ih]
  | (_, Value.vstruct ofs) :: os => by
      have ihs := diff_self_eq ofs
      have ih := diff_self_eq os
      simp [getPatchPayloadFromUpdate, isNilV, structFields, ihs, ih]

theorem diff_cons_self (m : FieldMeta) (v : Value) (os cs : List (FieldMeta × Value)) :
    getPatchPayloadFromUpdate ((m, v) :: os) ((m, v) :: cs) =
      getPatchPayloadFromUpdate os cs := by
  cases v <;> simp [getPatchPayloadFromUpdate, isNilV, structFields, beqV_refl, diff_self_eq]

/-- Concurrency-control envelope of `entity.go` (`Entity`): resource
location, identifier, display name, the bound transport client (modelled
as an opaque handle), the stored etag and the two etag behaviour flags. -/
structure Entity where
  ODataID : String
  ID : String
  Name : String
  client : Option Nat
  etag : String
  stripEtagQuotes : Bool
  disableEtagMatch : Bool
deriving DecidableEq, Repr

/-- Transport request as handed to `client.PatchWithHeaders` /
`client.PostWithHeaders`: target URI, payload and header map. -/
structure Request where
  uri : String
  payload : Payload
  headers : List (String × String)
deriving DecidableEq

/-- Model of `strings.Trim(s, "\"")`: removes every leading and trailing
quote character. -/
def trimQuotes (s : String) : String :=
  String.mk (((s.data.dropWhile fun c => c = '"').reverse.dropWhile fun c => c = '"').reverse)

/-- `Entity.Patch`: builds the `If-Match` header from the stored etag
unless the etag is unknown or matching is disabled, stripping quotes (and
writing the stripped etag back into the entity, as the source does) when
`stripEtagQuotes` is set; returns the entity after the call and the
request handed to `client.PatchWithHeaders`. -/
def Entity.Patch (e : Entity) (uri : String) (payload : Payload) : Entity × Request :=
  if e.etag ≠ "" ∧ e.disableEtagMatch = false then
    let newEtag := if e.stripEtagQuotes = true then trimQuotes e.etag else e.etag
    ({e with etag := newEtag}, ⟨uri, payload, [("If-Match", newEtag)]⟩)
  else
    (e, ⟨uri, payload, []⟩)

/-- `Entity.Post`: identical header construction to `Entity.Patch`, the
request going to `client.PostWithHeaders`. -/
def Entity.Post (e : Entity) (uri : String) (payload : Payload) : Entity × Request :=
  if e.etag ≠ "" ∧ e.disableEtagMatch = false then
    let newEtag := if e.stripEtagQuotes = true then trimQuotes e.etag else e.etag
    ({e with etag := newEtag}, ⟨uri, payload, [("If-Match", newEtag)]⟩)
  else
    (e, ⟨uri, payload, []⟩)

/-- Outcome of `Entity.Update`: the error returned for a disallowed field,
the silent success on an empty payload, or the `Patch` network call that
was issued (the first two constructors carry no request: no network call
is made on those paths). -/
inductive UpdateResult where
  | readOnlyError (field : String)
  | noOp
  | patched (req : Request)
deriving DecidableEq

/-- `Entity.Update`: diffs the two snapshots, scans the payload for a
field outside the allow-list (the scan models the `for field := range
payload` loop, whose map iteration order is unspecified in Go; list order
stands in for it) and fails with the read-only-field error before any
call; otherwise issues `Patch` iff the payload is non-empty. -/
def Entity.Update (e : Entity) (originalEntity updatedEntity : List (FieldMeta × Value))
    (allowedUpdates : List String) : Entity × UpdateResult :=
  let payload := getPatchPayloadFromUpdate originalEntity updatedEntity
  match payload.find? (fun p => !(allowedUpdates.contains p.1)) with
  | some p => (e, UpdateResult.readOnlyError p.1)
  | none =>
    if payload.length > 0 then
      let r := e.Patch e.ODataID payload
      (r.1, UpdateResult.patched r.2)
    else
      (e, UpdateResult.noOp)

/-- JSON values carried by a response body. -/
inductive Json where
  | null : Json
  | bool : Bool → Json
  | num : Int → Json
  | str : String → Json
  | arr : List Json → Json
  | obj : List (String × Json) → Json

/-- Dynamic Go values produced by `json.Unmarshal` into an `interface{}`
field: JSON numbers decode to `float64` (modelled as `dfloat` over the
integral values relevant here), never to a Go `int` (`dint`); compound
values round-trip unchanged through `dcompound`. -/
inductive GoDyn where
  | dnull : GoDyn
  | dfloat : Int → GoDyn
  | dint : Int → GoDyn
  | dstr : String → GoDyn
  | dbool : Bool → GoDyn
  | dcompound : Json → GoDyn

/-- Decoding a JSON value into `interface{}` (`encoding/json` semantics):
numbers become `float64`. -/
def jsonToDyn : Json → GoDyn
  | Json.null => GoDyn.dnull
  | Json.num n => GoDyn.dfloat n
  | Json.str s => GoDyn.dstr s
  | Json.bool b => GoDyn.dbool b
  | Json.arr xs => GoDyn.dcompound (Json.arr xs)
  | Json.obj fs => GoDyn.dcompound (Json.obj fs)

/-- Re-encoding a dynamic Go value with `json.Marshal`. -/
def dynToJson : GoDyn → Json
  | GoDyn.dnull => Json.null
  | GoDyn.dfloat n => Json.num n
  | GoDyn.dint n => Json.num n
  | GoDyn.dstr s => Json.str s
  | GoDyn.dbool b => Json.bool b
  | GoDyn.dcompound j => j

/-- ASCII lower-casing of one character (the fold relevant to the JSON
field names at hand). -/
def charLower (c : Char) : Char :=
  if c.isUpper then Char.ofNat (c.toNat + 32) else c

/-- Case-insensitive string comparison (`encoding/json`'s field-name
fold). -/
def eqFold (a b : String) : Bool :=
  a.data.map charLower == b.data.map charLower

/-- Key lookup with `encoding/json` field matching: an exact tag match is
preferred, else a case-insensitive one. -/
def lookupCI (k : String) (fields : List (String × Json)) : Option Json :=
  match fields.find? fun p => p.1 == k with
  | some p => some p.2
  | none => (fields.find? fun p => eqFold p.1 k).map Prod.snd

/-- Normalization switch of `Entity.Get` (`switch v := check.ID.(type)`):
only a value whose dynamic type is a Go `int` is rewritten to its decimal
string; every other type (in particular the `float64` produced for every
JSON number) passes through unchanged. -/
def normalizeCheckID : GoDyn → GoDyn
  | GoDyn.dint n => GoDyn.dstr (toString n)
  | v => v

/-- Decoding a JSON value into a Go `string` struct field: `null` leaves
the zero value in place, a string is stored, anything else is an
unmarshalling type error. -/
def decodeIntoStringField : Json → Except String (Option String)
  | Json.null => Except.ok none
  | Json.str s => Except.ok (some s)
  | _ => Except.error "json: cannot unmarshal value into Go value of type string"

/-- Target record shape the response body is decoded into: the
JSON-visible fields of `Entity` (tags `@odata.id`, `Id`, `Name`). -/
structure DecodedRecord where
  ODataID : String
  ID : String
  Name : String
deriving DecidableEq, Repr

/-- `Entity.Get` (the `checkStruct` variant, entity.go lines 434-476):
reads the body, unmarshals it into `checkStruct{ID interface{}}` (tag
`id`), runs the `case int:` normalization switch, re-marshals `check` —
an object holding only the `id` key — and unmarshals that object into the
target record; on success stores the `Etag` response header value, when
present, and binds the client.  `c` is the opaque client handle, `body`
the response body object, `etagHeader` the optional `Etag` header. -/
def Entity.Get (e : Entity) (c : Nat) (body : List (String × Json))
    (etagHeader : Option String) : Except String (DecodedRecord × Entity) :=
  let checkID : GoDyn :=
    match lookupCI "id" body with
    | some j => jsonToDyn j
    | none => GoDyn.dnull
  let checkID := normalizeCheckID checkID
  match decodeIntoStringField (dynToJson checkID) with
  | Except.error msg => Except.error msg
  | Except.ok idVal =>
    let record : DecodedRecord := ⟨"", idVal.getD "", ""⟩
    let e1 := match etagHeader with
      | some t => {e with etag := t}
      | none => e
    Except.ok (record, {e1 with client := some c})

/-- Modelled from the spec: `common.CollectionError` (the aggregate error
type of the collection retriever) is not under `src/`; per the spec it
“carries the full link→error mapping”. -/
structure CollectionError where
  Failures : List (String × String)
deriving DecidableEq, Repr

/-- Modelled from the spec: emptiness test (`collectionError.Empty()`) of
the aggregate error. -/
def CollectionError.Empty (ce : CollectionError) : Bool :=
  ce.Failures.isEmpty

/-- Fan-in aggregation of the per-member fetch results
(`for r := range ch` in `ListReferencedDataStorageLineOfServices`):
successful items go to the result list, failures to the link→error
mapping.  The channel delivers results in completion order, which Go
leaves unspecified; member-link order stands in for it. -/
def aggregate {α : Type} (fetch : String → Except String α) :
    List String → List α × List (String × String)
  | [] => ([], [])
  | l :: ls =>
    let rest := aggregate fetch ls
    match fetch l with
    | Except.ok item => (item :: rest.1, rest.2)
    | Except.error err => (rest.1, (l, err) :: rest.2)

/-- `ListReferencedDataStorageLineOfServices` (part_000 lines 79-119): an
empty link is an empty success, no error; otherwise every member link is
fetched and aggregated, a failure of the collection walk itself
(`common.CollectList`, modelled from the spec as it is not under `src/`:
it paginates the collection and dispatches one fetch per member link,
reporting its own error separately) is keyed by the collection link, and
the aggregate error is returned iff the failure mapping is non-empty.
`memberLinks` are the links the walk yields and `walkErr` its error. -/
def ListReferencedDataStorageLineOfServices {α : Type}
    (fetch : String → Except String α) (link : String)
    (memberLinks : List String) (walkErr : Option String) :
    List α × Option CollectionError :=
  if link = "" then ([], none)
  else
    let agg := aggregate fetch memberLinks
    let failures := match walkErr with
      | some err => (link, err) :: agg.2
      | none => agg.2
    if (CollectionError.mk failures).Empty = true then (agg.1, none)
    else (agg.1, some (CollectionError.mk failures))

/-- Two field lists of the same shape whose values agree on every field
that is not pointer-kinded (they may differ arbitrarily on
pointer-kinded fields). -/
def differOnlyInPtrFields : List (FieldMeta × Value) → List (FieldMeta × Value) → Prop
  | [], [] => True
  | (m, ov) :: os, (m2, cv) :: cs =>
      m = m2 ∧ (m.isPtr = false → ov = cv) ∧ differOnlyInPtrFields os cs
  | _, _ => False

theorem diff_ptr_only_aux : ∀ os cs, differOnlyInPtrFields os cs →
    getPatchPayloadFromUpdate os cs = []
  | [], [], _ => by simp [getPatchPayloadFromUpdate]
  | [], _ :: _, h => absurd h (by simp [differOnlyInPtrFields])
  | _ :: _, [], h => absurd h (by simp [differOnlyInPtrFields])
  | (m, ov) :: os, (m2, cv) :: cs, h => by
      obtain ⟨hm, hv, hrest⟩ := h
      subst hm
      have ih := diff_ptr_only_aux os cs hrest
      by_cases hp : m.isPtr = true
      · cases ov <;> simp [getPatchPayloadFromUpdate, structFields, hp, ih]
      · have hveq : ov = cv := hv (by simpa using hp)
        subst hveq
        rw [diff_cons_self]
        exact ih

/-- C7: for every record `A` (of any same-shaped record type),
`diff(A, A)` yields an empty payload — no field of any kind (scalar,
sequence, mapping or nested record) is reported when both snapshots are
identical. -/
theorem c7_diff_idempotent (fs : List (FieldMeta × Value)) :
    getPatchPayloadFromUpdate fs fs = [] :=
  diff_self_eq fs

/-- C8: for every pair of records differing only in pointer-kinded
(ownership-reference) fields, the diff payload is empty: such fields are
never diffed and never appear in a payload. -/
theorem c8_ptr_fields_never_diffed (os cs : List (FieldMeta × Value))
    (h : differOnlyInPtrFields os cs) :
    getPatchPayloadFromUpdate os cs = [] :=
  diff_ptr_only_aux os cs h

/-- Witness for C8: two records differing exactly in one pointer-kinded
field diff to the empty payload. -/
theorem c8_ptr_fields_never_diffed_witness :
    differOnlyInPtrFields [(⟨"Owner", "", false, true, true⟩, Value.vint 1)]
        [(⟨"Owner", "", false, true, true⟩, Value.vint 2)] ∧
    getPatchPayloadFromUpdate [(⟨"Owner", "", false, true, true⟩, Value.vint 1)]
        [(⟨"Owner", "", false, true, true⟩, Value.vint 2)] = [] :=
  ⟨⟨rfl, by simp, trivial⟩,
    c8_ptr_fields_never_diffed _ _ ⟨rfl, by simp, trivial⟩⟩

/-- C4 counterexample: on an entity with stored token `"abc"` (quoted wire
form), quote-stripping enabled and matching enabled, `Patch` does NOT
leave the concurrency-control state unchanged — it overwrites the stored
token with its quote-stripped form. -/
theorem c4_counterexample :
    ¬((Entity.Patch ⟨"/u", "", "", none, "\"abc\"", true, false⟩ "/u" []).1.etag =
        "\"abc\"") := by
  decide

/-- C4 (amended): `Patch` and `Post` leave both behaviour flags
unchanged, and leave the stored version token unchanged except when
quote-stripping is enabled, the token is non-empty and matching is not
disabled, in which case the token is overwritten with its quote-stripped
form; only a successful `Get` otherwise mutates the token. -/
theorem c4_amended_patch_post_state (e : Entity) (uri : String) (p : Payload) :
    ((e.Patch uri p).1.stripEtagQuotes = e.stripEtagQuotes ∧
      (e.Patch uri p).1.disableEtagMatch = e.disableEtagMatch ∧
      (e.Patch uri p).1.etag =
        (if e.etag ≠ "" ∧ e.disableEtagMatch = false ∧ e.stripEtagQuotes = true
          then trimQuotes e.etag else e.etag)) ∧
    ((e.Post uri p).1.stripEtagQuotes = e.stripEtagQuotes ∧
      (e.Post uri p).1.disableEtagMatch = e.disableEtagMatch ∧
      (e.Post uri p).1.etag =
        (if e.etag ≠ "" ∧ e.disableEtagMatch = false ∧ e.stripEtagQuotes = true
          then trimQuotes e.etag else e.etag)) := by
  unfold Entity.Patch Entity.Post
  constructor <;> split_ifs <;> simp_all

/-- C3: on an entity whose stored version token is the (quoted, as
delivered in the `Etag` wire header) string `"abc123"` and whose version
checking is enabled, `Patch` sends an `If-Match` header carrying the
token surrounded by quote characters when quote-stripping is disabled,
and the bare `abc123` when quote-stripping is enabled. -/
theorem c3_patch_ifmatch_quoting (e : Entity) (uri : String) (p : Payload)
    (htok : e.etag = "\"abc123\"") (hmatch : e.disableEtagMatch = false) :
    (Entity.Patch {e with stripEtagQuotes := false} uri p).2.headers =
        [("If-Match", "\"abc123\"")] ∧
    (Entity.Patch {e with stripEtagQuotes := true} uri p).2.headers =
        [("If-Match", "abc123")] := by
  have htrim : trimQuotes "\"abc123\"" = "abc123" := by decide
  simp [Entity.Patch, htok, hmatch, htrim]

/-- Witness for C3 on a concrete entity holding the token. -/
theorem c3_patch_ifmatch_quoting_witness :
    (Entity.Patch ⟨"", "", "", none, "\"abc123\"", false, false⟩ "/r" []).2.headers =
        [("If-Match", "\"abc123\"")] ∧
    (Entity.Patch ⟨"", "", "", none, "\"abc123\"", true, false⟩ "/r" []).2.headers =
        [("If-Match", "abc123")] :=
  c3_patch_ifmatch_quoting ⟨"", "", "", none, "\"abc123\"", false, false⟩ "/r" [] rfl rfl

/-- C1: `Update` first diffs the snapshots; if some payload field is
outside the allow-list it returns the read-only-field error naming an
offending payload field and issues no network call (the result carries no
request); an empty payload is a no-op success with no network call; and
only a non-empty, fully allowed payload leads to a `Patch` call with that
payload against the entity's resource URI. -/
theorem c1_update_allowlist_gate (e : Entity)
    (originalEntity updatedEntity : List (FieldMeta × Value)) (allowedUpdates : List String) :
    ((∃ p ∈ getPatchPayloadFromUpdate originalEntity updatedEntity, p.1 ∉ allowedUpdates) →
      ∃ f, (e.Update originalEntity updatedEntity allowedUpdates).2 =
          UpdateResult.readOnlyError f ∧
        f ∈ (getPatchPayloadFromUpdate originalEntity updatedEntity).map Prod.fst ∧
        f ∉ allowedUpdates) ∧
    (getPatchPayloadFromUpdate originalEntity updatedEntity = [] →
      e.Update originalEntity updatedEntity allowedUpdates = (e, UpdateResult.noOp)) ∧
    (getPatchPayloadFromUpdate originalEntity updatedEntity ≠ [] →
      (∀ p ∈ getPatchPayloadFromUpdate originalEntity updatedEntity, p.1 ∈ allowedUpdates) →
      e.Update originalEntity updatedEntity allowedUpdates =
        ((e.Patch e.ODataID (getPatchPayloadFromUpdate originalEntity updatedEntity)).1,
          UpdateResult.patched
            (e.Patch e.ODataID (getPatchPayloadFromUpdate originalEntity updatedEntity)).2)) := by
  refine ⟨?_, ?_, ?_⟩
  · intro hex
    cases hf : (getPatchPayloadFromUpdate originalEntity updatedEntity).find?
        (fun p => !(allowedUpdates.contains p.1)) with
    | none =>
      exfalso
      obtain ⟨p, hp, hnp⟩ := hex
      have hnone := List.find?_eq_none.mp hf p hp
      simp only [Bool.not_eq_true', Bool.not_eq_false] at hnone
      exact hnp (List.elem_iff.mp hnone)
    | some p =>
      refine ⟨p.1, ?_, ?_, ?_⟩
      · unfold Entity.Update
        dsimp only
        rw [hf]
      · exact List.mem_map_of_mem Prod.fst (List.mem_of_find?_eq_some hf)
      · have hpred := List.find?_some hf
        simp only [Bool.not_eq_true'] at hpred
        intro hmem
        simp [hmem] at hpred
  · intro hnil
    simp [Entity.Update, hnil]
  · intro hne hall
    have hf : (getPatchPayloadFromUpdate originalEntity updatedEntity).find?
        (fun p => !(allowedUpdates.contains p.1)) = none := by
      rw [List.find?_eq_none]
      intro p hp
      simp only [Bool.not_eq_true', Bool.not_eq_false]
      exact List.elem_iff.mpr (hall p hp)
    have hlen : 0 < (getPatchPayloadFromUpdate originalEntity updatedEntity).length :=
      List.length_pos.mpr hne
    unfold Entity.Update
    dsimp only
    rw [hf]
    simp [hlen]

/-- Witness for C1: a single-field diff against an empty allow-list
yields the read-only-field error naming that field. -/
theorem c1_update_allowlist_gate_witness :
    ∃ f, (Entity.Update ⟨"/r", "", "", none, "", false, false⟩
          [(⟨"A", "", false, true, false⟩, Value.vint 1)]
          [(⟨"A", "", false, true, false⟩, Value.vint 2)] []).2 =
        UpdateResult.readOnlyError f ∧
      f ∈ (getPatchPayloadFromUpdate
          [(⟨"A", "", false, true, false⟩, Value.vint 1)]
          [(⟨"A", "", false, true, false⟩, Value.vint 2)]).map Prod.fst ∧
      f ∉ ([] : List String) := by
  have hpay : getPatchPayloadFromUpdate
      [(⟨"A", "", false, true, false⟩, Value.vint 1)]
      [(⟨"A", "", false, true, false⟩, Value.vint 2)] = [("A", Value.vint 2)] := by
    simp [getPatchPayloadFromUpdate, isNilV, beqV, wireName]
  exact (c1_update_allowlist_gate ⟨"/r", "", "", none, "", false, false⟩
      [(⟨"A", "", false, true, false⟩, Value.vint 1)]
      [(⟨"A", "", false, true, false⟩, Value.vint 2)] []).1
    ⟨("A", Value.vint 2), by simp [hpay], by simp⟩

/-- Failure mapping carried by an optional aggregate error (empty when no
error was returned). -/
def collectFailures : Option CollectionError → List (String × String)
  | none => []
  | some ce => ce.Failures

theorem aggregate_fst {α : Type} (fetch : String → Except String α) :
    ∀ ls : List String, (aggregate fetch ls).1 = ls.filterMap fun l => (fetch l).toOption
  | [] => rfl
  | l :: ls => by
      have ih := aggregate_fst fetch ls
      cases hf : fetch l <;> simp [aggregate, hf, ih, Except.toOption]

theorem aggregate_keys {α : Type} (fetch : String → Except String α) :
    ∀ ls : List String,
      ((aggregate fetch ls).2).map Prod.fst = ls.filter fun l => !(fetch l).isOk
  | [] => rfl
  | l :: ls => by
      have ih := aggregate_keys fetch ls
      cases hf : fetch l <;>
        simp [aggregate, hf, ih, Except.isOk, Except.toBool, List.filter_cons]

theorem aggregate_length {α : Type} (fetch : String → Except String α) :
    ∀ ls : List String,
      (aggregate fetch ls).1.length + (aggregate fetch ls).2.length = ls.length
  | [] => rfl
  | l :: ls => by
      have ih := aggregate_length fetch ls
      cases hf : fetch l <;> simp [aggregate, hf] <;> omega

theorem listRef_fst {α : Type} (fetch : String → Except String α) (link : String)
    (ls : List String) (h : link ≠ "") :
    (ListReferencedDataStorageLineOfServices fetch link ls none).1 =
      (aggregate fetch ls).1 := by
  simp only [ListReferencedDataStorageLineOfServices, if_neg h]
  split <;> rfl

theorem listRef_failures {α : Type} (fetch : String → Except String α) (link : String)
    (ls : List String) (h : link ≠ "") :
    collectFailures (ListReferencedDataStorageLineOfServices fetch link ls none).2 =
      (aggregate fetch ls).2 := by
  simp only [ListReferencedDataStorageLineOfServices, if_neg h]
  by_cases hemp : ((aggregate fetch ls).2).isEmpty = true
  · simp [CollectionError.Empty, hemp, collectFailures, List.isEmpty_iff.mp hemp]
  · simp [CollectionError.Empty, hemp, collectFailures]

theorem listRef_none {α : Type} (fetch : String → Except String α) (link : String)
    (ls : List String) (h : link ≠ "") (hnil : (aggregate fetch ls).2 = []) :
    (ListReferencedDataStorageLineOfServices fetch link ls none).2 = none := by
  simp [ListReferencedDataStorageLineOfServices, if_neg h, hnil, CollectionError.Empty]

/-- C2: a collection fetch over N member links of which exactly K fail
returns the successfully fetched items of the non-failing links (hence
N−K of them), an aggregate failure mapping with exactly the K failing
links as keys, each link landing in exactly one of the two, and a nil
error when the failure mapping is empty. -/
theorem c2_collection_partition {α : Type} (fetch : String → Except String α)
    (link : String) (memberLinks : List String) (hlink : link ≠ "") :
    ((ListReferencedDataStorageLineOfServices fetch link memberLinks none).1 =
        memberLinks.filterMap fun l => (fetch l).toOption) ∧
    (ListReferencedDataStorageLineOfServices fetch link memberLinks none).1.length =
        memberLinks.length - (memberLinks.filter fun l => !(fetch l).isOk).length ∧
    (collectFailures
        (ListReferencedDataStorageLineOfServices fetch link memberLinks none).2).length =
      (memberLinks.filter fun l => !(fetch l).isOk).length ∧
    (∀ l ∈ memberLinks,
      ((fetch l).isOk = true ∧
        l ∉ (collectFailures
          (ListReferencedDataStorageLineOfServices fetch link memberLinks none).2).map
            Prod.fst) ∨
      ((fetch l).isOk = false ∧
        l ∈ (collectFailures
          (ListReferencedDataStorageLineOfServices fetch link memberLinks none).2).map
            Prod.fst)) ∧
    ((∀ l ∈ memberLinks, (fetch l).isOk = true) →
      (ListReferencedDataStorageLineOfServices fetch link memberLinks none).2 = none) := by
  have hfst := listRef_fst fetch link memberLinks hlink
  have hfail := listRef_failures fetch link memberLinks hlink
  have hkeys := aggregate_keys fetch memberLinks
  have hlen := aggregate_length fetch memberLinks
  have hsndlen : (aggregate fetch memberLinks).2.length =
      (memberLinks.filter fun l => !(fetch l).isOk).length := by
    rw [← hkeys, List.length_map]
  refine ⟨?_, ?_, ?_, ?_, ?_⟩
  · rw [hfst, aggregate_fst]
  · rw [hfst]
    omega
  · rw [hfail, hsndlen]
  · intro l hl
    rw [hfail, hkeys]
    cases hok : (fetch l).isOk
    · exact Or.inr ⟨rfl, List.mem_filter.mpr ⟨hl, by simp [hok]⟩⟩
    · exact Or.inl ⟨rfl, fun hmem => by simpa [hok] using (List.mem_filter.mp hmem).2⟩
  · intro hall
    refine listRef_none fetch link memberLinks hlink ?_
    have : ((aggregate fetch memberLinks).2).map Prod.fst = [] := by
      rw [hkeys]
      exact List.filter_eq_nil_iff.mpr fun l hl => by simp [hall l hl]
    exact List.map_eq_nil_iff.mp this

/-- Witness for C2: three member links of which exactly one fails. -/
theorem c2_collection_partition_witness :
    (ListReferencedDataStorageLineOfServices
        (fun l => if l = "bad" then Except.error "boom" else Except.ok l)
        "/c" ["a", "bad", "b"] none).1 = ["a", "b"] := by
  have h := (c2_collection_partition
      (fun l => if l = "bad" then Except.error "boom" else Except.ok l)
      "/c" ["a", "bad", "b"] (by decide)).1
  rw [h]
  rfl

/-- C10: when the collection walk itself fails, its error is recorded in
the aggregate failure mapping keyed by the collection link, alongside the
member-link failures; the caller therefore receives an aggregate error
whose mapping may contain the collection link as a key. -/
theorem c10_walk_failure_keyed_by_collection_link {α : Type}
    (fetch : String → Except String α) (link : String) (memberLinks : List String)
    (werr : String) (hlink : link ≠ "") :
    ∃ ce, (ListReferencedDataStorageLineOfServices fetch link memberLinks (some werr)).2 =
        some ce ∧
      (link, werr) ∈ ce.Failures ∧
      ∀ p ∈ (aggregate fetch memberLinks).2, p ∈ ce.Failures := by
  refine ⟨⟨(link, werr) :: (aggregate fetch memberLinks).2⟩, ?_, ?_, ?_⟩
  · simp [ListReferencedDataStorageLineOfServices, if_neg hlink, CollectionError.Empty]
  · simp
  · intro p hp
    simp [hp]

/-- Witness for C10 with one successful member link and a failing walk. -/
theorem c10_walk_failure_witness :
    ∃ ce, (ListReferencedDataStorageLineOfServices (fun l => Except.ok l) "/c" ["a"]
        (some "walk failed")).2 = some ce ∧
      ("/c", "walk failed") ∈ ce.Failures ∧
      ∀ p ∈ (aggregate (fun l => Except.ok l) ["a"]).2, p ∈ ce.Failures :=
  c10_walk_failure_keyed_by_collection_link (fun l => Except.ok l) "/c" ["a"]
    "walk failed" (by decide)

/-- C9: for a visible (exported, non-pointer, non-excluded) field, the
diff engine recurses into nested-record fields — splicing the recursive
result into the parent payload when the field is embedded, nesting it
under the field's wire name exactly when it is non-empty otherwise — and
includes a sequence- or mapping-shaped field, with its full new value,
iff the two values are not deeply structurally equal. -/
theorem c9_nested_and_collection_fields (m : FieldMeta)
    (hexp : m.exported = true) (hptr : m.isPtr = false) (htag : m.jsonTag ≠ "-") :
    (∀ ofs ufs os cs, m.anonymous = true →
      getPatchPayloadFromUpdate ((m, Value.vstruct ofs) :: os) ((m, Value.vstruct ufs) :: cs) =
        getPatchPayloadFromUpdate ofs ufs ++ getPatchPayloadFromUpdate os cs) ∧
    (∀ ofs ufs os cs, m.anonymous = false → getPatchPayloadFromUpdate ofs ufs ≠ [] →
      getPatchPayloadFromUpdate ((m, Value.vstruct ofs) :: os) ((m, Value.vstruct ufs) :: cs) =
        (wireName m, Value.vmap (getPatchPayloadFromUpdate ofs ufs)) ::
          getPatchPayloadFromUpdate os cs) ∧
    (∀ ofs ufs os cs, m.anonymous = false → getPatchPayloadFromUpdate ofs ufs = [] →
      getPatchPayloadFromUpdate ((m, Value.vstruct ofs) :: os) ((m, Value.vstruct ufs) :: cs) =
        getPatchPayloadFromUpdate os cs) ∧
    (∀ xs cv os cs, Value.vslice xs = cv →
      getPatchPayloadFromUpdate ((m, Value.vslice xs) :: os) ((m, cv) :: cs) =
        getPatchPayloadFromUpdate os cs) ∧
    (∀ xs cv os cs, Value.vslice xs ≠ cv →
      getPatchPayloadFromUpdate ((m, Value.vslice xs) :: os) ((m, cv) :: cs) =
        (wireName m, cv) :: getPatchPayloadFromUpdate os cs) ∧
    (∀ xs cv os cs, Value.vmap xs = cv →
      getPatchPayloadFromUpdate ((m, Value.vmap xs) :: os) ((m, cv) :: cs) =
        getPatchPayloadFromUpdate os cs) ∧
    (∀ xs cv os cs, Value.vmap xs ≠ cv →
      getPatchPayloadFromUpdate ((m, Value.vmap xs) :: os) ((m, cv) :: cs) =
        (wireName m, cv) :: getPatchPayloadFromUpdate os cs) := by
  refine ⟨?_, ?_, ?_, ?_, ?_, ?_, ?_⟩
  · intro ofs ufs os cs han
    simp [getPatchPayloadFromUpdate, hexp, hptr, htag, han, isNilV, structFields]
  · intro ofs ufs os cs han hne
    simp [getPatchPayloadFromUpdate, hexp, hptr, htag, han, hne, isNilV, structFields]
  · intro ofs ufs os cs han hnil
    simp [getPatchPayloadFromUpdate, hexp, hptr, htag, han, hnil, isNilV, structFields]
  · intro xs cv os cs heq
    subst heq
    simp [getPatchPayloadFromUpdate, hexp, hptr, htag, isNilV, beqV_refl]
  · intro xs cv os cs hne
    have hb := beqV_eq_false_of_ne hne
    simp [getPatchPayloadFromUpdate, hexp, hptr, htag, isNilV, hb]
  · intro xs cv os cs heq
    subst heq
    simp [getPatchPayloadFromUpdate, hexp, hptr, htag, isNilV, beqV_refl]
  · intro xs cv os cs hne
    have hb := beqV_eq_false_of_ne hne
    simp [getPatchPayloadFromUpdate, hexp, hptr, htag, isNilV, hb]

/-- Witness for C9: a changed slice-shaped field is reported with its full
new value. -/
theorem c9_nested_and_collection_fields_witness :
    getPatchPayloadFromUpdate
        [(⟨"F", "", false, true, false⟩, Value.vslice [Value.vint 1])]
        [(⟨"F", "", false, true, false⟩, Value.vslice [Value.vint 2])] =
      [("F", Value.vslice [Value.vint 2])] := by
  have h := (c9_nested_and_collection_fields ⟨"F", "", false, true, false⟩ rfl rfl
      (by decide)).2.2.2.2.1
    [Value.vint 1] (Value.vslice [Value.vint 2]) [] [] (by simp)
  simpa [wireName, getPatchPayloadFromUpdate] using h

/-- C5 (code evaluation at the failing input): decoding a response whose
identifier arrives as the JSON number `7` does not yield the string `"7"`:
the `case int:` normalization never fires (the decoded dynamic value is a
`float64`), and `Get` fails decoding the number into the string-typed
identifier field instead of succeeding with `"7"`. -/
theorem c5_numeric_id_not_normalized :
    normalizeCheckID (jsonToDyn (Json.num 7)) = GoDyn.dfloat 7 ∧
    Entity.Get ⟨"/r", "", "", none, "", false, false⟩ 0 [("Id", Json.num 7)] none =
      Except.error "json: cannot unmarshal value into Go value of type string" :=
  ⟨rfl, rfl⟩

/-- C6 (code evaluation at the failing input): `Get` stores the `Etag`
header and binds the client, but decodes only the `id` key of the
re-marshalled `checkStruct` — the body's `Name` field is dropped (the
decoded record carries `""` although the body said `"n1"`). -/
theorem c6_get_drops_unmatched_body_fields :
    Entity.Get ⟨"", "", "", none, "", false, false⟩ 3
        [("Id", Json.str "5"), ("Name", Json.str "n1")] (some "W/1") =
      Except.ok (⟨"", "5", ""⟩, ⟨"", "", "", some 3, "W/1", false, false⟩) :=
  rfl

end Gofish
